import Mathlib

/-!
Verification of the structured-document parser and dependency-graph
materializer of `generate-issues.py`.

The Python source is embedded shallowly: each string operation of the source
(`str.strip`, `str.lower`, `str.startswith`, `str.split`, `in`, `int(...)`)
is modelled by an executable Lean function over `List Char` / `String`, and
the line scanner `WorkPlanParser.parse` is modelled as a structural recursion
over the list of lines.  `int(...)` can raise `ValueError`, so the embedded
parser returns `Option`: `none` models an uncaught exception escaping
`parse`.

Modelling notes (gaps that do not affect any theorem below):
* Python's `str.strip` / `\d` / `str.lower` act on full Unicode; the model
  uses the ASCII behaviour (the whitespace set of `str.strip` is modelled
  exactly for ASCII).
* Python's `int(...)` additionally accepts underscores between digits;
  the model accepts an optional sign followed by decimal digits.
-/

set_option maxRecDepth 10000

namespace BeadsGen

/-- Whitespace characters stripped by Python `str.strip()` (ASCII part). -/
def isPySpace (c : Char) : Bool :=
  c = ' ' || c = '\t' || c = '\n' || c = '\r' || c = '\x0b' || c = '\x0c'

/-- Model of Python `str.strip()` on the character list. -/
def pyStripL (l : List Char) : List Char :=
  ((l.dropWhile isPySpace).reverse.dropWhile isPySpace).reverse

/-- Model of Python `str.strip()`. -/
def pyStrip (s : String) : String := ⟨pyStripL s.data⟩

/-- Model of Python `str.lower()` (ASCII part). -/
def pyLower (s : String) : String := ⟨s.data.map Char.toLower⟩

/-- Does `l` start with the pattern `pat`? (Python `str.startswith`.) -/
def listStarts : List Char → List Char → Bool
  | [], _ => true
  | _ :: _, [] => false
  | p :: ps, c :: cs => p = c && listStarts ps cs

/-- Model of Python `str.startswith(pat)`. -/
def sStarts (pat s : String) : Bool := listStarts pat.data s.data

/-- If `l` starts with `pat`, return the remainder, else `none`. -/
def dropStart : List Char → List Char → Option (List Char)
  | [], l => some l
  | _ :: _, [] => none
  | p :: ps, c :: cs => if p = c then dropStart ps cs else none

/-- Does `s` contain `pat` as a contiguous run? (Python `pat in s`.) -/
def listHasSub (pat : List Char) : List Char → Bool
  | [] => listStarts pat []
  | c :: cs => listStarts pat (c :: cs) || listHasSub pat cs

/-- Model of Python `pat in s` on strings. -/
def sHasSub (pat s : String) : Bool := listHasSub pat.data s.data

/-- Model of Python `s.split(c)` (split on every occurrence). -/
def splitCharAux (c : Char) : List Char → List Char → List (List Char)
  | [], acc => [acc.reverse]
  | x :: xs, acc =>
    if x = c then acc.reverse :: splitCharAux c xs [] else splitCharAux c xs (x :: acc)

/-- The field of index 1 of Python `s.split(c)` (between the first and second
occurrence of `c`; in the source this is only applied to lines known to
contain `c`). -/
def fieldOne (c : Char) (l : List Char) : List Char :=
  ((splitCharAux c l []).get? 1).getD []

/-- Model of Python `s.split(c, 1)[1]`: everything after the first occurrence
of `c` (only applied to lines known to contain `c`). -/
def afterFirst (c : Char) (l : List Char) : List Char :=
  (l.dropWhile (fun x => x ≠ c)).drop 1

/-- Decimal value of a digit list. -/
def digitsVal (l : List Char) : Nat :=
  l.foldl (fun a c => a * 10 + (c.toNat - 48)) 0

/-- Model of Python `int(s)` on an already-stripped character list: an
optional sign followed by a nonempty run of decimal digits; anything else
raises `ValueError`, modelled as `none`. -/
def pyIntL : List Char → Option Int
  | [] => none
  | c :: ds =>
    if c = '+' then
      if ds ≠ [] ∧ ds.all Char.isDigit then some (digitsVal ds) else none
    else if c = '-' then
      if ds ≠ [] ∧ ds.all Char.isDigit then some (-(digitsVal ds : Int)) else none
    else if (c :: ds).all Char.isDigit then some (digitsVal (c :: ds)) else none

/-- Drop the first `n` characters of a string (Python `s[n:]`). -/
def sDrop (s : String) (n : Nat) : String := ⟨s.data.drop n⟩

/-- The `Issue` value type of the source (`beads_id` is assigned only by the
materializer and is modelled there as a separate map). -/
structure Issue where
  title : String
  issue_type : String
  priority : Int
  description : String := ""
  parent : Option String := none
  epic_id : Option String := none
deriving Repr, DecidableEq

/-- Python string formatting of an optional string (`f"...{x}"` renders
`None` as `"None"`). -/
def optStr : Option String → String
  | some s => s
  | none => "None"

/-- Match of `EPIC_PATTERN = r'^## Epic (\d+): (.+)$'` against a (stripped)
line, returning the numeric id and the title. -/
def epicLineOf (t : String) : Option (String × String) :=
  match dropStart "## Epic ".data t.data with
  | none => none
  | some r =>
    let num := r.takeWhile Char.isDigit
    if num.isEmpty then none
    else
      match dropStart [':', ' '] (r.dropWhile Char.isDigit) with
      | none => none
      | some ttl => if ttl.isEmpty then none else some (⟨num⟩, ⟨ttl⟩)

/-- Match of `FEATURE_PATTERN = r'^#### (\d+\.\d+) (.+)$'`, returning the
dotted number and the title. -/
def featLineOf (t : String) : Option (String × String) :=
  match dropStart "#### ".data t.data with
  | none => none
  | some r =>
    let d1 := r.takeWhile Char.isDigit
    if d1.isEmpty then none
    else
      match r.dropWhile Char.isDigit with
      | '.' :: r2 =>
        let d2 := r2.takeWhile Char.isDigit
        if d2.isEmpty then none
        else
          match r2.dropWhile Char.isDigit with
          | ' ' :: ttl =>
            if ttl.isEmpty then none
            else some (⟨d1 ++ '.' :: d2⟩, ⟨ttl⟩)
          | _ => none
      | _ => none

/-- Match of `TASK_PATTERN = r'^\*\*(\d+\.\d+\.\d+)\*\* (.+)$'`. -/
def taskLineOf (t : String) : Option (String × String) :=
  match dropStart "**".data t.data with
  | none => none
  | some r =>
    let d1 := r.takeWhile Char.isDigit
    if d1.isEmpty then none
    else
      match r.dropWhile Char.isDigit with
      | '.' :: r2 =>
        let d2 := r2.takeWhile Char.isDigit
        if d2.isEmpty then none
        else
          match r2.dropWhile Char.isDigit with
          | '.' :: r3 =>
            let d3 := r3.takeWhile Char.isDigit
            if d3.isEmpty then none
            else
              match r3.dropWhile Char.isDigit with
              | '*' :: '*' :: ' ' :: ttl =>
                if ttl.isEmpty then none
                else some (⟨d1 ++ '.' :: d2 ++ '.' :: d3⟩, ⟨ttl⟩)
              | _ => none
          | _ => none
      | _ => none

/-- Match of `CHORE_PATTERN = r'^\*\*(\d+\.C\.\d+)\*\* (.+)$'`. -/
def choreLineOf (t : String) : Option (String × String) :=
  match dropStart "**".data t.data with
  | none => none
  | some r =>
    let d1 := r.takeWhile Char.isDigit
    if d1.isEmpty then none
    else
      match r.dropWhile Char.isDigit with
      | '.' :: 'C' :: '.' :: r2 =>
        let d2 := r2.takeWhile Char.isDigit
        if d2.isEmpty then none
        else
          match r2.dropWhile Char.isDigit with
          | '*' :: '*' :: ' ' :: ttl =>
            if ttl.isEmpty then none
            else some (⟨d1 ++ '.' :: 'C' :: '.' :: d2⟩, ⟨ttl⟩)
          | _ => none
      | _ => none

/-- Match of `BUG_PATTERN = r'^\*\*(\d+\.B\.\d+)\*\* (.+)$'`. -/
def bugLineOf (t : String) : Option (String × String) :=
  match dropStart "**".data t.data with
  | none => none
  | some r =>
    let d1 := r.takeWhile Char.isDigit
    if d1.isEmpty then none
    else
      match r.dropWhile Char.isDigit with
      | '.' :: 'B' :: '.' :: r2 =>
        let d2 := r2.takeWhile Char.isDigit
        if d2.isEmpty then none
        else
          match r2.dropWhile Char.isDigit with
          | '*' :: '*' :: ' ' :: ttl =>
            if ttl.isEmpty then none
            else some (⟨d1 ++ '.' :: 'B' :: '.' :: d2⟩, ⟨ttl⟩)
          | _ => none
      | _ => none

/-- The priority extraction of the source's feature branch:
`int(next_line.split(":")[1].split("(")[0].strip())` — the text between the
first and second colon, truncated before the first `(`, stripped, read as an
integer.  `none` models the `ValueError` of `int`. -/
def priExtract (t : String) : Option Int :=
  pyIntL (pyStripL ((fieldOne ':' t.data).takeWhile (fun c => c ≠ '(')))

/-- Join with single spaces (Python `" ".join`). -/
def joinSp : List String → String
  | [] => ""
  | [x] => x
  | x :: xs => x ++ " " ++ joinSp xs

/-- The feature-branch lookahead of `WorkPlanParser.parse`: scan following
lines while they are non-blank, collecting `- Priority:`, `- Type:` and
`- Description:` attributes, stopping at a line starting with `**` or `###`.
State `(p, ty, ds)` starts at `(2, "feature", [])`. -/
def featScanAux (p : Int) (ty : String) (ds : List String) :
    List String → Option (Int × String × String)
  | [] => some (p, ty, joinSp ds)
  | l :: rest =>
    let t := pyStrip l
    if t = "" then some (p, ty, joinSp ds)
    else if sStarts "- Priority:" t then
      match priExtract t with
      | some v => featScanAux v ty ds rest
      | none => none
    else if sStarts "- Type:" t then
      featScanAux p ⟨pyStripL (fieldOne ':' t.data)⟩ ds rest
    else if sStarts "- Description:" t then
      featScanAux p ty (ds ++ [⟨pyStripL (afterFirst ':' t.data)⟩]) rest
    else if sStarts "**" t || sStarts "###" t then some (p, ty, joinSp ds)
    else featScanAux p ty ds rest

/-- Feature attribute scan with the source's initial state. -/
def featScan (rest : List String) : Option (Int × String × String) :=
  featScanAux 2 "feature" [] rest

/-- The epic-branch description collector: contiguous lines with non-blank
strip, stopping at a line starting with `###`; each collected line is
stripped. -/
def collectDesc : List String → List String
  | [] => []
  | l :: rest =>
    let t := pyStrip l
    if t = "" then []
    else if sStarts "###" t then []
    else t :: collectDesc rest

/-- Scan forward for the first line whose strip starts with
`**Description:**`, returning the lines after it (the epic branch's `j`
loop; note the scan is NOT bounded to the current group). -/
def findDescMarker : List String → Option (List String)
  | [] => none
  | l :: rest =>
    if sStarts "**Description:**" (pyStrip l) then some rest
    else findDescMarker rest

/-- Description assembled for an epic from the lines after its header. -/
def epicDescScan (rest : List String) : String :=
  match findDescMarker rest with
  | some r => joinSp (collectDesc r)
  | none => ""

/-- The epic `Issue` built by the epic branch. -/
def epicIssue (ttl d num : String) : Issue :=
  { title := ttl, issue_type := "epic", priority := 1, description := d,
    parent := none, epic_id := some num }

/-- The feature `Issue` built by the feature branch; `e` is
`current_epic_num` (rendered as `"None"` when absent, as in the `f`-string
`f"epic-{current_epic_num}"`). -/
def featIssue (ttl ty : String) (p : Int) (d : String) (e : Option String) : Issue :=
  { title := ttl, issue_type := ty, priority := p, description := d,
    parent := some ("epic-" ++ optStr e), epic_id := none }

/-- The task `Issue` built by the task branch. -/
def taskIssue (ttl : String) (e : Option String) : Issue :=
  { title := ttl, issue_type := "task", priority := 2, description := "",
    parent := some ("epic-" ++ optStr e), epic_id := none }

/-- The chore `Issue` built by the chore branch. -/
def choreIssue (ttl : String) (e : Option String) : Issue :=
  { title := ttl, issue_type := "chore", priority := 3, description := "",
    parent := some ("epic-" ++ optStr e), epic_id := none }

/-- The bug `Issue` built by the bug branch. -/
def bugIssue (ttl : String) (e : Option String) : Issue :=
  { title := ttl, issue_type := "bug", priority := 4, description := "",
    parent := some ("epic-" ++ optStr e), epic_id := none }

/-- Action decided for one (stripped) line by the `if`/`elif` cascade of
`WorkPlanParser.parse`. -/
inductive Act where
  | epic (num ttl : String)
  | sect (name : String)
  | feat (ttl : String)
  | task (ttl : String)
  | chore (ttl : String)
  | bug (ttl : String)
  | skip
deriving Repr, DecidableEq

/-- Bug check of the cascade (checked last). -/
def actB (t : String) (sec : Option String) : Act :=
  match bugLineOf t with
  | some (_, ttl) =>
    if sHasSub "potential bugs" (optStr sec) ∧ sec ≠ none then .bug ttl else .skip
  | none => .skip

/-- Chore check of the cascade, falling through to the bug check. -/
def actC (t : String) (sec : Option String) : Act :=
  match choreLineOf t with
  | some (_, ttl) =>
    if sHasSub "chores" (optStr sec) ∧ sec ≠ none then .chore ttl else actB t sec
  | none => actB t sec

/-- Task check of the cascade, falling through to the chore check. -/
def actT (t : String) (sec : Option String) : Act :=
  match taskLineOf t with
  | some (_, ttl) =>
    if sHasSub "tasks" (optStr sec) ∧ sec ≠ none then .task ttl else actC t sec
  | none => actC t sec

/-- Feature check of the cascade, falling through to the task check.  The
guard models `if feature_match and current_section and "features" in
current_section` (an unset or empty section fails the guard). -/
def actF (t : String) (sec : Option String) : Act :=
  match featLineOf t with
  | some (_, ttl) =>
    if sHasSub "features" (optStr sec) ∧ sec ≠ none then .feat ttl else actT t sec
  | none => actT t sec

/-- The full per-line cascade: epic pattern first, then section headers,
then the sectioned item patterns in source order. -/
def lineAct (t : String) (sec : Option String) : Act :=
  match epicLineOf t with
  | some (num, ttl) => .epic num ttl
  | none =>
    if sStarts "### " t then .sect (pyLower (pyStrip (sDrop t 4)))
    else actF t sec

/-- The main loop of `WorkPlanParser.parse`, instrumented with the source
line index `i` of each emitted issue.  The loop advances by exactly one line
per iteration (all attribute/description reads are lookaheads); `none`
models the uncaught `ValueError` from the priority attribute. -/
def parseAux (i : Nat) (e sec : Option String) :
    List String → Option (List (Nat × Issue))
  | [] => some []
  | l :: rest =>
    let t := pyStrip l
    match lineAct t sec with
    | .epic num ttl =>
      (parseAux (i + 1) (some num) sec rest).map
        (fun out => (i, epicIssue ttl (epicDescScan rest) num) :: out)
    | .sect name => parseAux (i + 1) e (some name) rest
    | .feat ttl =>
      match featScan rest with
      | some (p, ty, d) =>
        (parseAux (i + 1) e sec rest).map
          (fun out => (i, featIssue ttl ty p d e) :: out)
      | none => none
    | .task ttl =>
      (parseAux (i + 1) e sec rest).map (fun out => (i, taskIssue ttl e) :: out)
    | .chore ttl =>
      (parseAux (i + 1) e sec rest).map (fun out => (i, choreIssue ttl e) :: out)
    | .bug ttl =>
      (parseAux (i + 1) e sec rest).map (fun out => (i, bugIssue ttl e) :: out)
    | .skip => parseAux (i + 1) e sec rest

/-- The issue sequence returned by `WorkPlanParser.parse` on a fresh parser,
as a function of the document's lines (`content.split('\n')`). -/
def parseLines (lines : List String) : Option (List Issue) :=
  (parseAux 0 none none lines).map (List.map Prod.snd)

/-- The main loop threading the parser object's `self.issues` accumulator
`acc` through every `append`, returning the final value of `self.issues`
(which is what `parse` returns).  `none` models the uncaught exception. -/
def parseAcc (acc : List Issue) (e sec : Option String) :
    List String → Option (List Issue)
  | [] => some acc
  | l :: rest =>
    let t := pyStrip l
    match lineAct t sec with
    | .epic num ttl =>
      parseAcc (acc ++ [epicIssue ttl (epicDescScan rest) num]) (some num) sec rest
    | .sect name => parseAcc acc e (some name) rest
    | .feat ttl =>
      match featScan rest with
      | some (p, ty, d) => parseAcc (acc ++ [featIssue ttl ty p d e]) e sec rest
      | none => none
    | .task ttl => parseAcc (acc ++ [taskIssue ttl e]) e sec rest
    | .chore ttl => parseAcc (acc ++ [choreIssue ttl e]) e sec rest
    | .bug ttl => parseAcc (acc ++ [bugIssue ttl e]) e sec rest
    | .skip => parseAcc acc e sec rest

/-- A `parse()` call on a parser object whose `self.issues` currently holds
`st`: the loop appends to `st` and the method returns the whole list. -/
def parseOn (st : List Issue) (lines : List String) : Option (List Issue) :=
  parseAcc st none none lines

/-- The spec-side `groupKey` of an item: the textual group reference carried
by `parent`, with the fixed `"epic-"` prefix removed. -/
def groupKey (iss : Issue) : Option String :=
  iss.parent.map (fun p => ⟨p.data.drop 5⟩)

/-- The identifier of the nearest preceding group-header line: fold over the
lines before the item, keeping the numeric id of the last line matching the
group-header pattern (spec notion used by P2). -/
def lastEpic (e : Option String) (ls : List String) : Option String :=
  ls.foldl
    (fun a l =>
      match epicLineOf (pyStrip l) with
      | some p => some p.1
      | none => a) e

/-! ### Graph materializer (`generate_issues`, direct-execution path) -/

/-- Lookup in a Python dict modelled as an association list (first match;
keys are unique by construction of `dSet`). -/
def dGet : List (String × String) → String → Option String
  | [], _ => none
  | (a, b) :: m, k => if a = k then some b else dGet m k

/-- Python dict assignment `d[k] = v`: replace the binding if present,
append otherwise. -/
def dSet : List (String × String) → String → String → List (String × String)
  | [], k, v => [(k, v)]
  | (a, b) :: m, k, v => if a = k then (k, v) :: m else (a, b) :: dSet m k v

/-- The key recorded for an epic in phase 1: `f"epic-{issue.epic_id}"`. -/
def epicKey (iss : Issue) : String := "epic-" ++ optStr iss.epic_id

/-- Phase 1 (`Creating epics...`): for each issue of type `epic` call
`createItem`; on success record `epic_map[key] = id`.  The abstract store is
`create : Nat → Option String`, giving the result of `createItem` for the
issue at a given position of the input list (`none` = `CreateFailure`). -/
def phase1Aux (create : Nat → Option String) :
    List (Nat × Issue) → List (String × String) → List (String × String)
  | [], m => m
  | (n, iss) :: rest, m =>
    if iss.issue_type = "epic" then
      match create n with
      | some sid => phase1Aux create rest (dSet m (epicKey iss) sid)
      | none => phase1Aux create rest m
    else phase1Aux create rest m

/-- The `epic_map` after phase 1. -/
def phase1 (issues : List Issue) (create : Nat → Option String) :
    List (String × String) :=
  phase1Aux create issues.enum []

/-- `parent_id = epic_map.get(issue.parent, "") if issue.parent else ""`. -/
def parentOf (em : List (String × String)) (iss : Issue) : String :=
  match iss.parent with
  | some p => (dGet em p).getD ""
  | none => ""

/-- Phase 2 (`Creating features, tasks, chores, and bugs...`): every
non-epic issue is submitted to `createItem`; on success, if its parent key
resolves to a non-empty id, a pending edge is recorded.  Each pending edge
keeps the originating `Issue` (the source keys `parent_map` by the created
child id; the triple retains the same information). -/
def phase2Aux (create : Nat → Option String) (em : List (String × String)) :
    List (Nat × Issue) → List (Issue × String × String)
  | [] => []
  | (n, iss) :: rest =>
    if iss.issue_type = "epic" then phase2Aux create em rest
    else
      match create n with
      | some cid =>
        if parentOf em iss = "" then phase2Aux create em rest
        else (iss, cid, parentOf em iss) :: phase2Aux create em rest
      | none => phase2Aux create em rest

/-- The pending edges after phase 2. -/
def phase2 (issues : List Issue) (create : Nat → Option String)
    (em : List (String × String)) : List (Issue × String × String) :=
  phase2Aux create em issues.enum

/-- The positions submitted to `createItem` during phase 2 (every non-epic
issue, regardless of whether its group was created). -/
def phase2Sub (issues : List Issue) : List Nat :=
  (issues.enum.filter (fun p => p.2.issue_type ≠ "epic")).map (fun p => p.1)

/-- Result of one `bd dep add` invocation: success, or failure with the
process's `stderr` text (`LinkFailure`). -/
inductive LinkRes where
  | ok
  | err (stderr : String)
deriving Repr, DecidableEq

/-- Is a failure a write-contention failure?  The source recognizes the
cause by the diagnostic substring `"database is locked"`. -/
def isLocked (r : LinkRes) : Bool :=
  match r with
  | .ok => false
  | .err s => sHasSub "database is locked" s

/-- The bounded-retry loop `for retry in range(3)` for one edge, where
`f r` is the outcome of attempt number `r`.  Returns the number of attempts
made and whether the edge was linked.  On failure: retry only when
`retry < 2` and the stderr shows contention; otherwise the failure is
permanent. -/
def linkLoop (f : Nat → LinkRes) : List Nat → Nat → Nat × Bool
  | [], att => (att, false)
  | r :: rs, att =>
    match f r with
    | .ok => (att + 1, true)
    | .err s =>
      if r < 2 ∧ sHasSub "database is locked" s then linkLoop f rs (att + 1)
      else (att + 1, false)

/-- Retry policy applied to one edge: attempts `0`, `1`, `2`. -/
def linkRetry (f : Nat → LinkRes) : Nat × Bool := linkLoop f [0, 1, 2] 0

/-- Phase 3: process every pending edge in order with the bounded retry
policy, tallying `(success_count, failed_count)`; a permanently failed edge
is reported and the loop moves on to the next edge.  `link e r` is the
outcome of attempt `r` for the edge at position `e`. -/
def phase3Aux (link : Nat → Nat → LinkRes) :
    List (Nat × (Issue × String × String)) → Nat → Nat → Nat × Nat
  | [], sc, fc => (sc, fc)
  | (e, _) :: rest, sc, fc =>
    if (linkRetry (link e)).2 then phase3Aux link rest (sc + 1) fc
    else phase3Aux link rest sc (fc + 1)

/-- The `(success_count, failed_count)` tally of phase 3. -/
def phase3 (edges : List (Issue × String × String))
    (link : Nat → Nat → LinkRes) : Nat × Nat :=
  phase3Aux link edges.enum 0 0

/-- The edges successfully linked in phase 3. -/
def successfulLinks (edges : List (Issue × String × String))
    (link : Nat → Nat → LinkRes) : List (Issue × String × String) :=
  (edges.enum.filter (fun p => (linkRetry (link p.1)).2)).map (fun p => p.2)

/-! ### Basic lemmas about the string utilities and line matchers -/

theorem dropStart_eq : ∀ (pat l r : List Char), dropStart pat l = some r → l = pat ++ r := by
  intro pat
  induction pat with
  | nil =>
    intro l r h
    simp only [dropStart, Option.some.injEq] at h
    simp [h]
  | cons p ps ih =>
    intro l r h
    cases l with
    | nil => simp [dropStart] at h
    | cons c cs =>
      by_cases hpc : p = c
      · subst hpc
        simp only [dropStart, if_pos rfl] at h
        simpa using ih cs r h
      · simp [dropStart, hpc] at h

/-- A line matching the epic pattern starts with `"## Epic "`. -/
theorem epicLineOf_shape {t : String} {x : String × String}
    (h : epicLineOf t = some x) :
    ∃ r, t.data = '#' :: '#' :: ' ' :: 'E' :: 'p' :: 'i' :: 'c' :: ' ' :: r := by
  unfold epicLineOf at h
  split at h
  · exact absurd h (by simp)
  · next r hr => exact ⟨r, dropStart_eq _ _ _ hr⟩

/-- A line matching the feature pattern starts with `"#### "`. -/
theorem featLineOf_shape {t : String} {x : String × String}
    (h : featLineOf t = some x) :
    ∃ r, t.data = '#' :: '#' :: '#' :: '#' :: ' ' :: r := by
  unfold featLineOf at h
  split at h
  · exact absurd h (by simp)
  · next r hr => exact ⟨r, dropStart_eq _ _ _ hr⟩

/-- A line matching the task pattern starts with `"**"`. -/
theorem taskLineOf_shape {t : String} {x : String × String}
    (h : taskLineOf t = some x) : ∃ r, t.data = '*' :: '*' :: r := by
  unfold taskLineOf at h
  split at h
  · exact absurd h (by simp)
  · next r hr => exact ⟨r, dropStart_eq _ _ _ hr⟩

/-- A line matching the chore pattern starts with `"**"`. -/
theorem choreLineOf_shape {t : String} {x : String × String}
    (h : choreLineOf t = some x) : ∃ r, t.data = '*' :: '*' :: r := by
  unfold choreLineOf at h
  split at h
  · exact absurd h (by simp)
  · next r hr => exact ⟨r, dropStart_eq _ _ _ hr⟩

/-- A line matching the bug pattern starts with `"**"`. -/
theorem bugLineOf_shape {t : String} {x : String × String}
    (h : bugLineOf t = some x) : ∃ r, t.data = '*' :: '*' :: r := by
  unfold bugLineOf at h
  split at h
  · exact absurd h (by simp)
  · next r hr => exact ⟨r, dropStart_eq _ _ _ hr⟩

/-- The epic and feature patterns cannot match the same line. -/
theorem epic_feat_clash {t : String} {x y : String × String}
    (h1 : epicLineOf t = some x) (h2 : featLineOf t = some y) : False := by
  obtain ⟨r1, e1⟩ := epicLineOf_shape h1
  obtain ⟨r2, e2⟩ := featLineOf_shape h2
  rw [e1] at e2
  simp at e2

/-- The epic pattern cannot match a `"**"` line. -/
theorem epic_star_clash {t : String} {x : String × String} {r : List Char}
    (h1 : epicLineOf t = some x) (h2 : t.data = '*' :: '*' :: r) : False := by
  obtain ⟨r1, e1⟩ := epicLineOf_shape h1
  rw [e1] at h2
  simp at h2

/-- The feature pattern cannot match a `"**"` line. -/
theorem feat_star_clash {t : String} {x : String × String} {r : List Char}
    (h1 : featLineOf t = some x) (h2 : t.data = '*' :: '*' :: r) : False := by
  obtain ⟨r1, e1⟩ := featLineOf_shape h1
  rw [e1] at h2
  simp at h2

/-! ### Case analysis of the `elif` cascade -/

theorem actB_cases (t : String) (s : Option String) :
    (∃ bn ttl, bugLineOf t = some (bn, ttl) ∧ actB t s = .bug ttl) ∨
    actB t s = .skip := by
  unfold actB
  cases h : bugLineOf t with
  | none => simp
  | some p =>
    by_cases hc : sHasSub "potential bugs" (optStr s) ∧ s ≠ none
    · exact Or.inl ⟨p.1, p.2, rfl, by simp [hc]⟩
    · simp [hc]

theorem actC_cases (t : String) (s : Option String) :
    (∃ cn ttl, choreLineOf t = some (cn, ttl) ∧ actC t s = .chore ttl) ∨
    (∃ bn ttl, bugLineOf t = some (bn, ttl) ∧ actC t s = .bug ttl) ∨
    actC t s = .skip := by
  unfold actC
  cases h : choreLineOf t with
  | none =>
    rcases actB_cases t s with ⟨bn, ttl, hb, hact⟩ | hact
    · exact Or.inr (Or.inl ⟨bn, ttl, hb, by simpa [actB] using hact⟩)
    · exact Or.inr (Or.inr (by simpa [actB] using hact))
  | some p =>
    by_cases hc : sHasSub "chores" (optStr s) ∧ s ≠ none
    · exact Or.inl ⟨p.1, p.2, rfl, by simp [hc]⟩
    · rcases actB_cases t s with ⟨bn, ttl, hb, hact⟩ | hact
      · exact Or.inr (Or.inl ⟨bn, ttl, hb, by simp [hc]; exact hact⟩)
      · exact Or.inr (Or.inr (by simp [hc]; exact hact))

theorem actT_cases (t : String) (s : Option String) :
    (∃ tn ttl, taskLineOf t = some (tn, ttl) ∧ actT t s = .task ttl) ∨
    (∃ cn ttl, choreLineOf t = some (cn, ttl) ∧ actT t s = .chore ttl) ∨
    (∃ bn ttl, bugLineOf t = some (bn, ttl) ∧ actT t s = .bug ttl) ∨
    actT t s = .skip := by
  unfold actT
  cases h : taskLineOf t with
  | none =>
    rcases actC_cases t s with ⟨cn, ttl, hc, hact⟩ | ⟨bn, ttl, hb, hact⟩ | hact
    · exact Or.inr (Or.inl ⟨cn, ttl, hc, hact⟩)
    · exact Or.inr (Or.inr (Or.inl ⟨bn, ttl, hb, hact⟩))
    · exact Or.inr (Or.inr (Or.inr hact))
  | some p =>
    by_cases hcnd : sHasSub "tasks" (optStr s) ∧ s ≠ none
    · exact Or.inl ⟨p.1, p.2, rfl, by simp [hcnd]⟩
    · rcases actC_cases t s with ⟨cn, ttl, hc, hact⟩ | ⟨bn, ttl, hb, hact⟩ | hact
      · exact Or.inr (Or.inl ⟨cn, ttl, hc, by simp [hcnd]; exact hact⟩)
      · exact Or.inr (Or.inr (Or.inl ⟨bn, ttl, hb, by simp [hcnd]; exact hact⟩))
      · exact Or.inr (Or.inr (Or.inr (by simp [hcnd]; exact hact)))

theorem actF_cases (t : String) (s : Option String) :
    (∃ fn ttl, featLineOf t = some (fn, ttl) ∧ actF t s = .feat ttl) ∨
    (∃ tn ttl, taskLineOf t = some (tn, ttl) ∧ actF t s = .task ttl) ∨
    (∃ cn ttl, choreLineOf t = some (cn, ttl) ∧ actF t s = .chore ttl) ∨
    (∃ bn ttl, bugLineOf t = some (bn, ttl) ∧ actF t s = .bug ttl) ∨
    actF t s = .skip := by
  unfold actF
  cases h : featLineOf t with
  | none =>
    rcases actT_cases t s with ⟨tn, ttl, ht, hact⟩ | ⟨cn, ttl, hc, hact⟩ |
      ⟨bn, ttl, hb, hact⟩ | hact
    · exact Or.inr (Or.inl ⟨tn, ttl, ht, hact⟩)
    · exact Or.inr (Or.inr (Or.inl ⟨cn, ttl, hc, hact⟩))
    · exact Or.inr (Or.inr (Or.inr (Or.inl ⟨bn, ttl, hb, hact⟩)))
    · exact Or.inr (Or.inr (Or.inr (Or.inr hact)))
  | some p =>
    by_cases hcnd : sHasSub "features" (optStr s) ∧ s ≠ none
    · exact Or.inl ⟨p.1, p.2, rfl, by simp [hcnd]⟩
    · rcases actT_cases t s with ⟨tn, ttl, ht, hact⟩ | ⟨cn, ttl, hc, hact⟩ |
        ⟨bn, ttl, hb, hact⟩ | hact
      · exact Or.inr (Or.inl ⟨tn, ttl, ht, by simp [hcnd]; exact hact⟩)
      · exact Or.inr (Or.inr (Or.inl ⟨cn, ttl, hc, by simp [hcnd]; exact hact⟩))
      · exact Or.inr (Or.inr (Or.inr (Or.inl ⟨bn, ttl, hb, by simp [hcnd]; exact hact⟩)))
      · exact Or.inr (Or.inr (Or.inr (Or.inr (by simp [hcnd]; exact hact))))

/-! ### Characterization of the emitted issues -/

/-- What the scanner can emit for a line whose strip is `t`, where `after`
is the list of lines after that line and `ek` is the epic number in force
at that line. -/
def EmitCase (t : String) (after : List String) (ek : Option String)
    (iss : Issue) : Prop :=
  (∃ num ttl, epicLineOf t = some (num, ttl) ∧
    iss = epicIssue ttl (epicDescScan after) num) ∨
  (∃ fn ttl p ty d, epicLineOf t = none ∧ featLineOf t = some (fn, ttl) ∧
    featScan after = some (p, ty, d) ∧ iss = featIssue ttl ty p d ek) ∨
  (∃ tn ttl, epicLineOf t = none ∧ taskLineOf t = some (tn, ttl) ∧
    iss = taskIssue ttl ek) ∨
  (∃ cn ttl, epicLineOf t = none ∧ choreLineOf t = some (cn, ttl) ∧
    iss = choreIssue ttl ek) ∨
  (∃ bn ttl, epicLineOf t = none ∧ bugLineOf t = some (bn, ttl) ∧
    iss = bugIssue ttl ek)

theorem lastEpic_cons_epic {l : String} {num ttl : String} {e : Option String}
    (h : epicLineOf (pyStrip l) = some (num, ttl)) (ls : List String) :
    lastEpic e (l :: ls) = lastEpic (some num) ls := by
  simp [lastEpic, h]

theorem lastEpic_cons_none {l : String} {e : Option String}
    (h : epicLineOf (pyStrip l) = none) (ls : List String) :
    lastEpic e (l :: ls) = lastEpic e ls := by
  simp [lastEpic, h]

/-- Shift the conclusion of the induction hypothesis across one consumed
line. -/
theorem tailShift {l : String} {rest : List String} {e e2 : Option String}
    {i k : Nat} {iss : Issue}
    (hle : ∀ xs, lastEpic e (l :: xs) = lastEpic e2 xs)
    (h1 : i + 1 ≤ k)
    (h2 : ∃ lk, rest.get? (k - (i + 1)) = some lk ∧
      EmitCase (pyStrip lk) (rest.drop (k - (i + 1) + 1))
        (lastEpic e2 (rest.take (k - (i + 1)))) iss) :
    i ≤ k ∧ ∃ lk, (l :: rest).get? (k - i) = some lk ∧
      EmitCase (pyStrip lk) ((l :: rest).drop (k - i + 1))
        (lastEpic e ((l :: rest).take (k - i))) iss := by
  obtain ⟨lk, hget, hcase⟩ := h2
  have hk : k - i = (k - (i + 1)) + 1 := by omega
  refine ⟨by omega, lk, ?_, ?_⟩
  · rw [hk]; exact hget
  · rw [hk]
    show EmitCase (pyStrip lk) (rest.drop (k - (i + 1) + 1))
      (lastEpic e (l :: rest.take (k - (i + 1)))) iss
    rw [hle]
    exact hcase

/-- Characterization of every `(index, issue)` pair produced by the main
scanning loop: the issue comes from the line at its recorded index via one
of the five emitting branches, with the epic context equal to the id of the
nearest preceding group-header line. -/
theorem parseAux_mem : ∀ (rest : List String) (i : Nat) (e s : Option String)
    (out : List (Nat × Issue)), parseAux i e s rest = some out →
    ∀ k iss, (k, iss) ∈ out →
    i ≤ k ∧ ∃ lk, rest.get? (k - i) = some lk ∧
      EmitCase (pyStrip lk) (rest.drop (k - i + 1))
        (lastEpic e (rest.take (k - i))) iss := by
  intro rest
  induction rest with
  | nil =>
    intro i e s out h k iss hm
    simp only [parseAux, Option.some.injEq] at h
    subst h
    simp at hm
  | cons l rest ih =>
    intro i e s out h k iss hm
    simp only [parseAux] at h
    cases hE : epicLineOf (pyStrip l) with
    | some pr =>
      obtain ⟨num, ttl⟩ := pr
      have hAct : lineAct (pyStrip l) s = .epic num ttl := by simp [lineAct, hE]
      simp only [hAct, Option.map_eq_some'] at h
      obtain ⟨out', hrec, hout⟩ := h
      subst hout
      rcases List.mem_cons.mp hm with hhd | htl
      · have hk : k = i := congrArg Prod.fst hhd
        have hiss : iss = epicIssue ttl (epicDescScan rest) num :=
          congrArg Prod.snd hhd
        subst hk
        refine ⟨le_rfl, l, by rw [Nat.sub_self]; rfl, ?_⟩
        rw [Nat.sub_self]
        exact Or.inl ⟨num, ttl, hE, hiss⟩
      · obtain ⟨h1, h2⟩ := ih (i + 1) (some num) s out' hrec k iss htl
        exact tailShift (lastEpic_cons_epic hE) h1 h2
    | none =>
      by_cases hS : sStarts "### " (pyStrip l) = true
      · have hAct : lineAct (pyStrip l) s =
            .sect (pyLower (pyStrip (sDrop (pyStrip l) 4))) := by
          simp [lineAct, hE, hS]
        simp only [hAct] at h
        obtain ⟨h1, h2⟩ := ih (i + 1) e _ out h k iss hm
        exact tailShift (lastEpic_cons_none hE) h1 h2
      · have hAct : lineAct (pyStrip l) s = actF (pyStrip l) s := by
          simp [lineAct, hE, hS]
        rcases actF_cases (pyStrip l) s with ⟨fn, fttl, hF, hFa⟩ |
          ⟨tn, tttl, hT, hTa⟩ | ⟨cn, cttl, hC, hCa⟩ | ⟨bn, bttl, hB, hBa⟩ | hSk
        · rw [hFa] at hAct
          simp only [hAct] at h
          cases hFS : featScan rest with
          | none => simp [hFS] at h
          | some trip =>
            obtain ⟨p, ty, d⟩ := trip
            simp only [hFS, Option.map_eq_some'] at h
            obtain ⟨out', hrec, hout⟩ := h
            subst hout
            rcases List.mem_cons.mp hm with hhd | htl
            · have hk : k = i := congrArg Prod.fst hhd
              have hiss : iss = featIssue fttl ty p d e := congrArg Prod.snd hhd
              subst hk
              refine ⟨le_rfl, l, by rw [Nat.sub_self]; rfl, ?_⟩
              rw [Nat.sub_self]
              exact Or.inr (Or.inl ⟨fn, fttl, p, ty, d, hE, hF, hFS, hiss⟩)
            · obtain ⟨h1, h2⟩ := ih (i + 1) e s out' hrec k iss htl
              exact tailShift (lastEpic_cons_none hE) h1 h2
        · rw [hTa] at hAct
          simp only [hAct, Option.map_eq_some'] at h
          obtain ⟨out', hrec, hout⟩ := h
          subst hout
          rcases List.mem_cons.mp hm with hhd | htl
          · have hk : k = i := congrArg Prod.fst hhd
            have hiss : iss = taskIssue tttl e := congrArg Prod.snd hhd
            subst hk
            refine ⟨le_rfl, l, by rw [Nat.sub_self]; rfl, ?_⟩
            rw [Nat.sub_self]
            exact Or.inr (Or.inr (Or.inl ⟨tn, tttl, hE, hT, hiss⟩))
          · obtain ⟨h1, h2⟩ := ih (i + 1) e s out' hrec k iss htl
            exact tailShift (lastEpic_cons_none hE) h1 h2
        · rw [hCa] at hAct
          simp only [hAct, Option.map_eq_some'] at h
          obtain ⟨out', hrec, hout⟩ := h
          subst hout
          rcases List.mem_cons.mp hm with hhd | htl
          · have hk : k = i := congrArg Prod.fst hhd
            have hiss : iss = choreIssue cttl e := congrArg Prod.snd hhd
            subst hk
            refine ⟨le_rfl, l, by rw [Nat.sub_self]; rfl, ?_⟩
            rw [Nat.sub_self]
            exact Or.inr (Or.inr (Or.inr (Or.inl ⟨cn, cttl, hE, hC, hiss⟩)))
          · obtain ⟨h1, h2⟩ := ih (i + 1) e s out' hrec k iss htl
            exact tailShift (lastEpic_cons_none hE) h1 h2
        · rw [hBa] at hAct
          simp only [hAct, Option.map_eq_some'] at h
          obtain ⟨out', hrec, hout⟩ := h
          subst hout
          rcases List.mem_cons.mp hm with hhd | htl
          · have hk : k = i := congrArg Prod.fst hhd
            have hiss : iss = bugIssue bttl e := congrArg Prod.snd hhd
            subst hk
            refine ⟨le_rfl, l, by rw [Nat.sub_self]; rfl, ?_⟩
            rw [Nat.sub_self]
            exact Or.inr (Or.inr (Or.inr (Or.inr ⟨bn, bttl, hE, hB, hiss⟩)))
          · obtain ⟨h1, h2⟩ := ih (i + 1) e s out' hrec k iss htl
            exact tailShift (lastEpic_cons_none hE) h1 h2
        · rw [hSk] at hAct
          simp only [hAct] at h
          obtain ⟨h1, h2⟩ := ih (i + 1) e s out h k iss hm
          exact tailShift (lastEpic_cons_none hE) h1 h2

/-! ### Lemmas about the attribute and description lookaheads -/

/-- The attribute block of a feature line: the following lines that the
lookahead actually processes, with the loop's own branch order — it ends at
the first line whose strip is blank, or, for a line that is none of the
three attributes, starts with `**` or `###`. -/
def attrBlock : List String → List String
  | [] => []
  | l :: rest =>
    let t := pyStrip l
    if t = "" then []
    else if sStarts "- Priority:" t then l :: attrBlock rest
    else if sStarts "- Type:" t then l :: attrBlock rest
    else if sStarts "- Description:" t then l :: attrBlock rest
    else if sStarts "**" t || sStarts "###" t then []
    else l :: attrBlock rest

/-- If no line of the attribute block is a `- Priority:` attribute, the
priority state of the feature scan never changes; lines after the block's
end (a blank line or a new marker) are never read by the scan. -/
theorem featScanAux_no_priority (p : Int) :
    ∀ (rest : List String) (ty : String) (ds : List String),
    (∀ l ∈ attrBlock rest, sStarts "- Priority:" (pyStrip l) = false) →
    ∃ ty2 d2, featScanAux p ty ds rest = some (p, ty2, d2) := by
  intro rest
  induction rest with
  | nil => intro ty ds _; exact ⟨ty, joinSp ds, rfl⟩
  | cons l rest ih =>
    intro ty ds h
    simp only [featScanAux]
    by_cases h0 : pyStrip l = ""
    · exact ⟨ty, joinSp ds, by simp [h0]⟩
    · rw [if_neg h0]
      by_cases hP : sStarts "- Priority:" (pyStrip l) = true
      · exfalso
        have hmem : l ∈ attrBlock (l :: rest) := by
          simp only [attrBlock]
          rw [if_neg h0, if_pos hP]
          exact List.mem_cons_self _ _
        have hf := h l hmem
        rw [hf] at hP
        exact absurd hP (by simp)
      · have hPf : sStarts "- Priority:" (pyStrip l) = false := by simpa using hP
        rw [if_neg (by simp [hPf])]
        by_cases hT : sStarts "- Type:" (pyStrip l) = true
        · rw [if_pos hT]
          apply ih
          intro x hx
          apply h
          simp only [attrBlock]
          rw [if_neg h0, if_neg (by simp [hPf]), if_pos hT]
          exact List.mem_cons_of_mem _ hx
        · rw [if_neg (by simp [hT])]
          have hTf : sStarts "- Type:" (pyStrip l) = false := by simpa using hT
          by_cases hD : sStarts "- Description:" (pyStrip l) = true
          · rw [if_pos hD]
            apply ih
            intro x hx
            apply h
            simp only [attrBlock]
            rw [if_neg h0, if_neg (by simp [hPf]), if_neg (by simp [hTf]), if_pos hD]
            exact List.mem_cons_of_mem _ hx
          · rw [if_neg (by simp [hD])]
            have hDf : sStarts "- Description:" (pyStrip l) = false := by simpa using hD
            by_cases hBrk : (sStarts "**" (pyStrip l) || sStarts "###" (pyStrip l)) = true
            · rw [if_pos hBrk]
              exact ⟨ty, joinSp ds, rfl⟩
            · rw [if_neg (by simp at hBrk ⊢; exact hBrk)]
              apply ih
              intro x hx
              apply h
              simp only [attrBlock]
              rw [if_neg h0, if_neg (by simp [hPf]), if_neg (by simp [hTf]),
                if_neg (by simp [hDf]), if_neg (by simp at hBrk ⊢; exact hBrk)]
              exact List.mem_cons_of_mem _ hx

/-- A nonempty-pattern `startswith` cannot hold of the empty string. -/
theorem sStarts_ne_empty {pat t : String} (hpat : pat.data ≠ [])
    (h : sStarts pat t = true) : t ≠ "" := by
  intro h0
  subst h0
  cases hp : pat.data with
  | nil => exact hpat hp
  | cons c cs =>
    rw [sStarts, hp] at h
    simp [listStarts] at h

/-- Running the feature scan through the attribute block up to its LAST
`- Priority:` line `lp` (earlier `- Priority:` lines must read successfully,
or the scan would crash before reaching `lp`), whose value reads as `n`,
followed by a block remainder free of further `- Priority:` lines, yields
priority `n`. -/
theorem featScanAux_priority (n : Int) :
    ∀ (pre : List String) (lp : String) (post : List String) (p : Int)
    (ty : String) (ds : List String),
    (∀ l ∈ pre, pyStrip l ≠ "" ∧
      sStarts "**" (pyStrip l) = false ∧ sStarts "###" (pyStrip l) = false ∧
      (sStarts "- Priority:" (pyStrip l) = true →
        ∃ m, priExtract (pyStrip l) = some m)) →
    sStarts "- Priority:" (pyStrip lp) = true →
    priExtract (pyStrip lp) = some n →
    (∀ l ∈ attrBlock post, sStarts "- Priority:" (pyStrip l) = false) →
    ∃ ty2 d2, featScanAux p ty ds (pre ++ lp :: post) = some (n, ty2, d2) := by
  intro pre
  induction pre with
  | nil =>
    intro lp post p ty ds _ hlp hn hpost
    have h0 : pyStrip lp ≠ "" := sStarts_ne_empty (by decide) hlp
    simp only [List.nil_append, featScanAux]
    rw [if_neg h0, if_pos hlp, hn]
    exact featScanAux_no_priority n post ty ds hpost
  | cons l pre ih =>
    intro lp post p ty ds hpre hlp hn hpost
    obtain ⟨h0, hStar, hHash, hPm⟩ := hpre l (List.mem_cons_self l pre)
    have hpre2 : ∀ x ∈ pre, pyStrip x ≠ "" ∧
        sStarts "**" (pyStrip x) = false ∧ sStarts "###" (pyStrip x) = false ∧
        (sStarts "- Priority:" (pyStrip x) = true →
          ∃ m, priExtract (pyStrip x) = some m) :=
      fun x hx => hpre x (List.mem_cons_of_mem l hx)
    simp only [List.cons_append, featScanAux]
    rw [if_neg h0]
    by_cases hP : sStarts "- Priority:" (pyStrip l) = true
    · obtain ⟨m, hm⟩ := hPm hP
      rw [if_pos hP, hm]
      exact ih lp post m ty ds hpre2 hlp hn hpost
    · rw [if_neg (by simpa using hP)]
      by_cases hT : sStarts "- Type:" (pyStrip l) = true
      · rw [if_pos hT]
        exact ih lp post p _ ds hpre2 hlp hn hpost
      · rw [if_neg (by simp [hT])]
        by_cases hD : sStarts "- Description:" (pyStrip l) = true
        · rw [if_pos hD]
          exact ih lp post p ty _ hpre2 hlp hn hpost
        · rw [if_neg (by simp [hD])]
          rw [if_neg (by simp [hStar, hHash])]
          exact ih lp post p ty ds hpre2 hlp hn hpost

/-- If no following line carries the `**Description:**` marker, an epic's
description is empty. -/
theorem epicDescScan_no_marker :
    ∀ (rest : List String),
    (∀ l ∈ rest, sStarts "**Description:**" (pyStrip l) = false) →
    epicDescScan rest = "" := by
  intro rest
  induction rest with
  | nil => intro _; rfl
  | cons l rest ih =>
    intro h
    have hl : sStarts "**Description:**" (pyStrip l) = false :=
      h l (List.mem_cons_self l rest)
    have hrest := fun x hx => h x (List.mem_cons_of_mem l hx)
    unfold epicDescScan findDescMarker
    rw [if_neg (by simp [hl])]
    have := ih hrest
    unfold epicDescScan at this
    exact this

/-- The description of an epic is collected right after the first
`**Description:**` marker line following it. -/
theorem epicDescScan_marker :
    ∀ (pre : List String) (mk : String) (post : List String),
    (∀ l ∈ pre, sStarts "**Description:**" (pyStrip l) = false) →
    sStarts "**Description:**" (pyStrip mk) = true →
    epicDescScan (pre ++ mk :: post) = joinSp (collectDesc post) := by
  intro pre
  induction pre with
  | nil =>
    intro mk post _ hmk
    unfold epicDescScan findDescMarker
    rw [List.nil_append]
    simp [hmk]
  | cons l pre ih =>
    intro mk post h hmk
    have hl : sStarts "**Description:**" (pyStrip l) = false :=
      h l (List.mem_cons_self l pre)
    have hrest := fun x hx => h x (List.mem_cons_of_mem l hx)
    have hstep : epicDescScan ((l :: pre) ++ mk :: post) =
        epicDescScan (pre ++ mk :: post) := by
      unfold epicDescScan
      rw [List.cons_append]
      simp only [findDescMarker]
      rw [if_neg (by simp [hl])]
    rw [hstep]
    exact ih mk post hrest hmk

/-! ### The parser-object accumulator -/

/-- The loop with accumulator `acc` returns `acc` followed by the issues of
a fresh scan (or fails exactly when a fresh scan fails). -/
theorem parseAcc_eq : ∀ (rest : List String) (acc : List Issue)
    (e s : Option String) (i : Nat),
    parseAcc acc e s rest =
      (parseAux i e s rest).map (fun out => acc ++ out.map Prod.snd) := by
  intro rest
  induction rest with
  | nil => intro acc e s i; simp [parseAcc, parseAux]
  | cons l rest ih =>
    intro acc e s i
    simp only [parseAcc, parseAux]
    cases hA : lineAct (pyStrip l) s with
    | epic num ttl =>
      dsimp only
      rw [ih (acc ++ [epicIssue ttl (epicDescScan rest) num]) (some num) s (i + 1)]
      cases parseAux (i + 1) (some num) s rest <;> simp
    | sect name =>
      dsimp only
      exact ih acc e (some name) (i + 1)
    | feat ttl =>
      dsimp only
      cases hFS : featScan rest with
      | none => rfl
      | some trip =>
        obtain ⟨p, ty, d⟩ := trip
        dsimp only
        rw [ih (acc ++ [featIssue ttl ty p d e]) e s (i + 1)]
        cases parseAux (i + 1) e s rest <;> simp
    | task ttl =>
      dsimp only
      rw [ih (acc ++ [taskIssue ttl e]) e s (i + 1)]
      cases parseAux (i + 1) e s rest <;> simp
    | chore ttl =>
      dsimp only
      rw [ih (acc ++ [choreIssue ttl e]) e s (i + 1)]
      cases parseAux (i + 1) e s rest <;> simp
    | bug ttl =>
      dsimp only
      rw [ih (acc ++ [bugIssue ttl e]) e s (i + 1)]
      cases parseAux (i + 1) e s rest <;> simp
    | skip =>
      dsimp only
      exact ih acc e s (i + 1)

/-! ### Lemmas about the materializer -/

theorem mem_enumFrom_iff {α : Type} :
    ∀ (l : List α) (j n : Nat) (a : α),
    (n, a) ∈ l.enumFrom j ↔ (j ≤ n ∧ l.get? (n - j) = some a) := by
  intro l
  induction l with
  | nil => intro j n a; simp [List.enumFrom]
  | cons x xs ih =>
    intro j n a
    constructor
    · intro h
      rcases List.mem_cons.mp h with h1 | h2
      · have hn : n = j := congrArg Prod.fst h1
        have ha : a = x := congrArg Prod.snd h1
        subst hn; subst ha
        exact ⟨le_rfl, by rw [Nat.sub_self]; rfl⟩
      · obtain ⟨hj, hget⟩ := (ih (j + 1) n a).mp h2
        refine ⟨by omega, ?_⟩
        have hd : n - j = (n - (j + 1)) + 1 := by omega
        rw [hd]
        exact hget
    · rintro ⟨hj, hget⟩
      rcases Nat.eq_or_lt_of_le hj with he | hlt
      · subst he
        rw [Nat.sub_self] at hget
        have ha : x = a := by simpa using hget
        subst ha
        exact List.mem_cons_self _ _
      · have hd : n - j = (n - (j + 1)) + 1 := by omega
        rw [hd] at hget
        exact List.mem_cons_of_mem _ ((ih (j + 1) n a).mpr ⟨by omega, hget⟩)

theorem mem_enum_iff {α : Type} (l : List α) (n : Nat) (a : α) :
    (n, a) ∈ l.enum ↔ l.get? n = some a := by
  have := mem_enumFrom_iff l 0 n a
  simpa [List.enum] using this

theorem get?_mem {α : Type} :
    ∀ (l : List α) (n : Nat) (a : α), l.get? n = some a → a ∈ l := by
  intro l
  induction l with
  | nil => intro n a h; simp [List.get?] at h
  | cons x xs ih =>
    intro n a h
    cases n with
    | zero =>
      have : x = a := by simpa using h
      subst this
      exact List.mem_cons_self _ _
    | succ m => exact List.mem_cons_of_mem _ (ih m a h)

theorem dGet_dSet_ne (k v K : String) (h : k ≠ K) :
    ∀ m : List (String × String), dGet (dSet m k v) K = dGet m K := by
  intro m
  induction m with
  | nil => simp [dGet, dSet, h]
  | cons a m ih =>
    obtain ⟨a1, a2⟩ := a
    by_cases h1 : a1 = k
    · subst h1
      simp [dSet, dGet, h]
    · by_cases h2 : a1 = K
      · subst h2
        simp [dSet, dGet, h1]
      · simp [dSet, dGet, h1, h2, ih]

/-- If every epic of the run whose key is `K` fails to create, `K` is never
recorded in the lookup table. -/
theorem phase1Aux_not_recorded (create : Nat → Option String) (K : String) :
    ∀ (L : List (Nat × Issue)) (m : List (String × String)),
    (∀ q ∈ L, q.2.issue_type = "epic" → epicKey q.2 = K → create q.1 = none) →
    dGet m K = none → dGet (phase1Aux create L m) K = none := by
  intro L
  induction L with
  | nil => intro m _ hm; exact hm
  | cons q L ih =>
    intro m h hm
    obtain ⟨n, iss⟩ := q
    have hq := h (n, iss) (List.mem_cons_self _ _)
    have hL := fun x hx => h x (List.mem_cons_of_mem _ hx)
    simp only [phase1Aux]
    by_cases hep : iss.issue_type = "epic"
    · rw [if_pos hep]
      cases hc : create n with
      | none => exact ih m hL hm
      | some sid =>
        have hkey : epicKey iss ≠ K := by
          intro hk
          rw [hq hep hk] at hc
          exact absurd hc (by simp)
        exact ih _ hL (by rw [dGet_dSet_ne _ _ _ hkey]; exact hm)
    · rw [if_neg hep]
      exact ih m hL hm

/-- If `K` does not resolve in the lookup table, no pending edge of phase 2
originates from an issue whose parent reference is `K`. -/
theorem phase2Aux_parent_ne (create : Nat → Option String)
    (em : List (String × String)) (K : String) (hK : dGet em K = none) :
    ∀ (L : List (Nat × Issue)), ∀ ed ∈ phase2Aux create em L,
    ed.1.parent ≠ some K := by
  intro L
  induction L with
  | nil => intro ed hed; simp [phase2Aux] at hed
  | cons q L ih =>
    intro ed hed
    obtain ⟨n, iss⟩ := q
    simp only [phase2Aux] at hed
    by_cases hep : iss.issue_type = "epic"
    · rw [if_pos hep] at hed
      exact ih ed hed
    · rw [if_neg hep] at hed
      cases hc : create n with
      | none => rw [hc] at hed; exact ih ed hed
      | some cid =>
        rw [hc] at hed
        dsimp only at hed
        by_cases hpid : parentOf em iss = ""
        · rw [if_pos hpid] at hed
          exact ih ed hed
        · rw [if_neg hpid] at hed
          rcases List.mem_cons.mp hed with h1 | h2
          · subst h1
            intro hP
            have hP2 : iss.parent = some K := hP
            refine hpid ?_
            simp [parentOf, hP2, hK]
          · exact ih ed h2

theorem mem_phase2Sub {issues : List Issue} {n : Nat} {iss : Issue}
    (h : issues.get? n = some iss) (hne : iss.issue_type ≠ "epic") :
    n ∈ phase2Sub issues := by
  unfold phase2Sub
  refine List.mem_map.mpr ⟨(n, iss), List.mem_filter.mpr ⟨?_, ?_⟩, rfl⟩
  · exact (mem_enum_iff issues n iss).mpr h
  · simpa using hne

theorem successfulLinks_sub {edges : List (Issue × String × String)}
    {link : Nat → Nat → LinkRes} :
    ∀ ed ∈ successfulLinks edges link, ed ∈ edges := by
  intro ed hed
  unfold successfulLinks at hed
  obtain ⟨⟨n, ed2⟩, hmem, hsnd⟩ := List.mem_map.mp hed
  have := (List.mem_filter.mp hmem).1
  have hget := (mem_enum_iff edges n ed2).mp this
  subst hsnd
  exact get?_mem edges n ed2 hget

theorem phase3Aux_sum (link : Nat → Nat → LinkRes) :
    ∀ (L : List (Nat × (Issue × String × String))) (sc fc : Nat),
    (phase3Aux link L sc fc).1 + (phase3Aux link L sc fc).2 =
      sc + fc + L.length := by
  intro L
  induction L with
  | nil => intro sc fc; simp [phase3Aux]
  | cons q L ih =>
    intro sc fc
    obtain ⟨e, ed⟩ := q
    simp only [phase3Aux]
    by_cases h : (linkRetry (link e)).2 = true
    · rw [if_pos h]
      rw [ih (sc + 1) fc]
      simp [List.length_cons]
      omega
    · rw [if_neg h]
      rw [ih sc (fc + 1)]
      simp [List.length_cons]
      omega

/-- Always-contended edge: exactly 3 attempts, then permanent failure. -/
theorem linkRetry_contention {f : Nat → LinkRes}
    (h : ∀ r, ∃ s, f r = .err s ∧ sHasSub "database is locked" s = true) :
    linkRetry f = (3, false) := by
  obtain ⟨s0, h0, hl0⟩ := h 0
  obtain ⟨s1, h1, hl1⟩ := h 1
  obtain ⟨s2, h2, hl2⟩ := h 2
  simp [linkRetry, linkLoop, h0, hl0, h1, hl1, h2, hl2]

/-- First failure not a contention: exactly 1 attempt, permanent failure. -/
theorem linkRetry_other {f : Nat → LinkRes} {s : String}
    (h0 : f 0 = .err s) (hn : sHasSub "database is locked" s = false) :
    linkRetry f = (1, false) := by
  simp [linkRetry, linkLoop, h0, hn]

/-! ### Spec-side reading of a priority value -/

/-- Leading (optionally signed) integer of an already-truncated, stripped
value: digits are read up to the first non-digit. -/
def specLeadIntCore : List Char → Option Int
  | [] => none
  | c :: ds =>
    if c = '+' then
      if (ds.takeWhile Char.isDigit).isEmpty then none
      else some (digitsVal (ds.takeWhile Char.isDigit))
    else if c = '-' then
      if (ds.takeWhile Char.isDigit).isEmpty then none
      else some (-(digitsVal (ds.takeWhile Char.isDigit) : Int))
    else
      if ((c :: ds).takeWhile Char.isDigit).isEmpty then none
      else some (digitsVal ((c :: ds).takeWhile Char.isDigit))

/-- Spec-side definition, following the spec's words: the leading integer of
a value, taken before any parenthetical annotation. -/
def specLeadInt (v : List Char) : Option Int :=
  specLeadIntCore (pyStripL (v.takeWhile (fun c => c ≠ '(')))

theorem takeWhile_all {p : Char → Bool} :
    ∀ l : List Char, l.all p = true → l.takeWhile p = l := by
  intro l
  induction l with
  | nil => intro _; rfl
  | cons c cs ih =>
    intro h
    simp only [List.all_cons, Bool.and_eq_true] at h
    simp [List.takeWhile_cons, h.1, ih h.2]

/-- Whenever Python's `int` succeeds on a stripped value, that value is an
optionally signed digit string, so the result is also its leading integer. -/
theorem specLeadIntCore_of_pyIntL :
    ∀ (w : List Char) (n : Int), pyIntL w = some n → specLeadIntCore w = some n := by
  intro w n h
  cases w with
  | nil => simp [pyIntL] at h
  | cons c ds =>
    by_cases hp : c = '+'
    · subst hp
      simp [pyIntL] at h
      obtain ⟨⟨hne, hall⟩, hn⟩ := h
      have hallb := List.all_eq_true.mpr hall
      simp [specLeadIntCore, takeWhile_all ds hallb, List.isEmpty_iff, hne, hn]
    · by_cases hm : c = '-'
      · subst hm
        simp [pyIntL] at h
        obtain ⟨⟨hne, hall⟩, hn⟩ := h
        have hallb := List.all_eq_true.mpr hall
        simp [specLeadIntCore, takeWhile_all ds hallb, List.isEmpty_iff, hne, hn]
      · simp [pyIntL, hp, hm] at h
        obtain ⟨⟨hcd, hall⟩, hn⟩ := h
        have hallb : (c :: ds).all Char.isDigit = true := by
          simp only [List.all_cons, hcd, Bool.true_and]
          exact List.all_eq_true.mpr hall
        simp [specLeadIntCore, hp, hm, takeWhile_all _ hallb, List.isEmpty_iff, hn]

/-- The code's priority extraction agrees with the spec-side leading-integer
reading whenever it succeeds. -/
theorem specLeadInt_of_priExtract {t : String} {n : Int}
    (h : priExtract t = some n) : specLeadInt (fieldOne ':' t.data) = some n :=
  specLeadIntCore_of_pyIntL _ n h

/-- The `groupKey` of an item whose parent reference is `"epic-" ++ n`. -/
theorem groupKey_epicPrefix {n : String} {iss : Issue}
    (h : iss.parent = some ("epic-" ++ n)) : groupKey iss = some n := by
  simp only [groupKey, h, Option.map_some']
  have hd : (("epic-" ++ n).data.drop 5) = n.data := by
    rw [String.data_append]
    have h5 : ("epic-" : String).data.length = 5 := rfl
    rw [← h5, List.drop_left]
  rw [Option.some.injEq]
  show String.mk (("epic-" ++ n).data.drop 5) = n
  rw [hd]

/-! ### Concrete documents used by the claims -/

/-- Scenario A document. -/
def docA : List String :=
  ["## Epic 1: Infra", "### Features", "#### 1.1 user-configurable retries"]

/-- The epic of Scenario A. -/
def issEpicA : Issue :=
  { title := "Infra", issue_type := "epic", priority := 1, description := "",
    parent := none, epic_id := some "1" }

/-- The feature of Scenario A. -/
def issFeatA : Issue :=
  { title := "user-configurable retries", issue_type := "feature",
    priority := 2, description := "", parent := some "epic-1", epic_id := none }

/-- The parse result of Scenario A. -/
def issuesA : List Issue := [issEpicA, issFeatA]

/-- A document whose feature line appears before any group header. -/
def docOrphan : List String :=
  ["### Features", "#### 1.1 user-configurable retries"]

/-- The orphan feature parsed from `docOrphan`. -/
def issOrphan : Issue :=
  { title := "user-configurable retries", issue_type := "feature",
    priority := 2, description := "", parent := some "epic-None",
    epic_id := none }

/-! ### C1 -/

/-- C1 counterexample: a feature line before any group header does NOT fail
the parse; a (one-element) WorkItem sequence is returned, so the claimed
`MalformedDocument` failure does not exist in the code. -/
theorem c1_counterexample :
    parseLines docOrphan = some [issOrphan] ∧
    (parseLines docOrphan).isSome = true := by
  exact ⟨by decide, by decide⟩

/-- C1 (amended): a structural item line appearing before any group header
does not fail the parse; the emitted item carries the parent key
`"epic-None"` (the f-string rendering of `None`). -/
theorem c1_amended_orphan_item :
    ∀ (lines : List String) (out : List (Nat × Issue)) (k : Nat) (iss : Issue),
    parseAux 0 none none lines = some out → (k, iss) ∈ out →
    iss.issue_type ≠ "epic" → lastEpic none (lines.take k) = none →
    iss.parent = some "epic-None" := by
  intro lines out k iss h hm hne hle
  obtain ⟨-, lk, hget, hcase⟩ := parseAux_mem lines 0 none none out h k iss hm
  rcases hcase with ⟨num, ttl, hEp, hiss⟩ | ⟨fn, ttl, p, ty, d, hE, hF, hFS, hiss⟩ |
    ⟨tn, ttl, hE, hT, hiss⟩ | ⟨cn, ttl, hE, hC, hiss⟩ | ⟨bn, ttl, hE, hB, hiss⟩
  · exact absurd (by rw [hiss]; rfl) hne
  · subst hiss
    simp only [featIssue, Nat.sub_zero, hle, optStr]
    rfl
  · subst hiss
    simp only [taskIssue, Nat.sub_zero, hle, optStr]
    rfl
  · subst hiss
    simp only [choreIssue, Nat.sub_zero, hle, optStr]
    rfl
  · subst hiss
    simp only [bugIssue, Nat.sub_zero, hle, optStr]
    rfl

/-- Witness for C1's amended theorem at the concrete orphan document. -/
theorem c1_amended_orphan_item_witness :
    parseAux 0 none none docOrphan = some [(1, issOrphan)] ∧
    issOrphan.parent = some "epic-None" :=
  ⟨by decide, c1_amended_orphan_item docOrphan [(1, issOrphan)] 1 issOrphan
    (by decide) (by decide) (by decide) (by decide)⟩

/-! ### C2 -/

/-- C2: bounded retry — an edge whose every attempt reports write contention
("database is locked" in stderr) is attempted exactly 3 times and counted as
a permanent failure; an edge whose first attempt fails with any other cause
is attempted exactly once; and phase 3 processes every pending edge (each is
tallied as a success or a failure, never aborting the run). -/
theorem c2_bounded_retry :
    ∀ (f g : Nat → LinkRes),
    (∀ r, ∃ s, f r = .err s ∧ sHasSub "database is locked" s = true) →
    (∃ s, g 0 = .err s ∧ sHasSub "database is locked" s = false) →
    linkRetry f = (3, false) ∧ linkRetry g = (1, false) ∧
    ∀ (edges : List (Issue × String × String)) (link : Nat → Nat → LinkRes),
      (phase3 edges link).1 + (phase3 edges link).2 = edges.length := by
  intro f g hf hg
  obtain ⟨s, hg0, hgn⟩ := hg
  refine ⟨linkRetry_contention hf, linkRetry_other hg0 hgn, ?_⟩
  intro edges link
  have := phase3Aux_sum link edges.enum 0 0
  simpa [phase3] using this

/-- Witness for C2 with a concrete always-contended store and a concrete
non-contention failure. -/
theorem c2_bounded_retry_witness :
    linkRetry (fun _ => .err "database is locked") = (3, false) ∧
    linkRetry (fun _ => .err "boom") = (1, false) ∧
    (phase3 [(issFeatA, "a", "b")] (fun _ _ => .ok)).1 +
      (phase3 [(issFeatA, "a", "b")] (fun _ _ => .ok)).2 = 1 := by
  have h := c2_bounded_retry (fun _ => .err "database is locked")
    (fun _ => .err "boom") (fun r => ⟨"database is locked", rfl, by decide⟩)
    ⟨"boom", rfl, by decide⟩
  exact ⟨h.1, h.2.1, h.2.2 [(issFeatA, "a", "b")] (fun _ _ => .ok)⟩

/-! ### C3 -/

/-- C3: phase independence — if `createItem` fails for a group `G` in phase
1 (and `G`'s key is not shared with another group of the run), `G`'s key is
not recorded in the lookup table, every non-group item is still submitted to
`createItem` in phase 2 (in particular every item whose parent references
`G`), and no edge originating from an item that references `G` appears among
the successfully linked edges. -/
theorem c3_phase_independence :
    ∀ (issues : List Issue) (create : Nat → Option String) (g : Nat) (G : Issue),
    issues.get? g = some G → G.issue_type = "epic" → create g = none →
    (∀ q ∈ issues.enum, q.2.issue_type = "epic" → epicKey q.2 = epicKey G → q.1 = g) →
    dGet (phase1 issues create) (epicKey G) = none ∧
    (∀ (n : Nat) (iss : Issue), issues.get? n = some iss →
      iss.issue_type ≠ "epic" → iss.parent = some (epicKey G) →
      n ∈ phase2Sub issues) ∧
    (∀ (link : Nat → Nat → LinkRes),
      ∀ ed ∈ successfulLinks (phase2 issues create (phase1 issues create)) link,
      ed.1.parent ≠ some (epicKey G)) := by
  intro issues create g G hg hep hfail huniq
  have h1 : dGet (phase1 issues create) (epicKey G) = none := by
    refine phase1Aux_not_recorded create (epicKey G) issues.enum [] ?_ rfl
    intro q hq hqe hqk
    rw [huniq q hq hqe hqk]
    exact hfail
  refine ⟨h1, ?_, ?_⟩
  · intro n iss hn hne _
    exact mem_phase2Sub hn hne
  · intro link ed hed
    exact phase2Aux_parent_ne create _ (epicKey G) h1 issues.enum ed
      (successfulLinks_sub ed hed)

/-- The issue list of the C3 witness run: the group with key `epic-1` fails
to create, a second group `epic-2` succeeds, and each has one feature. -/
def issuesW : List Issue :=
  [{ title := "A", issue_type := "epic", priority := 1, description := "",
     parent := none, epic_id := some "1" },
   { title := "B", issue_type := "epic", priority := 1, description := "",
     parent := none, epic_id := some "2" },
   { title := "x", issue_type := "feature", priority := 2, description := "",
     parent := some "epic-1", epic_id := none },
   { title := "y", issue_type := "feature", priority := 2, description := "",
     parent := some "epic-2", epic_id := none }]

/-- The store of the C3 witness run: creation fails exactly for the first
issue (the group `epic-1`). -/
def createW : Nat → Option String := fun n => if n = 0 then none else some "bd-1"

/-- Witness for C3 at the concrete run. -/
theorem c3_phase_independence_witness :
    dGet (phase1 issuesW createW)
      (epicKey { title := "A", issue_type := "epic", priority := 1,
                 description := "", parent := none, epic_id := some "1" }) = none ∧
    2 ∈ phase2Sub issuesW ∧
    ({ title := "y", issue_type := "feature", priority := 2, description := "",
       parent := some "epic-2", epic_id := none } : Issue).parent ≠ some "epic-1" := by
  have h := c3_phase_independence issuesW createW 0
    { title := "A", issue_type := "epic", priority := 1, description := "",
      parent := none, epic_id := some "1" }
    (by decide) (by decide) (by decide) (by decide)
  refine ⟨h.1, ?_, ?_⟩
  · exact h.2.1 2
      { title := "x", issue_type := "feature", priority := 2, description := "",
        parent := some "epic-1", epic_id := none }
      (by decide) (by decide) (by decide)
  · have h3 := h.2.2 (fun _ _ => .ok)
      ({ title := "y", issue_type := "feature", priority := 2, description := "",
         parent := some "epic-2", epic_id := none }, "bd-1", "bd-1") (by decide)
    exact h3

/-! ### C4 -/

/-- C4: group attachment — every non-group item's `groupKey` is the id of
the nearest preceding group-header line; and on the Scenario A document the
parser yields exactly the epic (null `groupKey`) and the feature (priority
2, `groupKey` "1"). -/
theorem c4_group_attachment :
    (∀ (lines : List String) (out : List (Nat × Issue)) (k : Nat) (iss : Issue)
      (n : String),
      parseAux 0 none none lines = some out → (k, iss) ∈ out →
      iss.issue_type ≠ "epic" → lastEpic none (lines.take k) = some n →
      groupKey iss = some n) ∧
    (parseLines docA = some issuesA ∧ issuesA.length = 2 ∧
      groupKey issEpicA = none ∧ groupKey issFeatA = some "1" ∧
      issFeatA.priority = 2) := by
  constructor
  · intro lines out k iss n h hm hne hle
    obtain ⟨-, lk, hget, hcase⟩ := parseAux_mem lines 0 none none out h k iss hm
    rcases hcase with ⟨num, ttl, hEp, hiss⟩ | ⟨fn, ttl, p, ty, d, hE, hF, hFS, hiss⟩ |
      ⟨tn, ttl, hE, hT, hiss⟩ | ⟨cn, ttl, hE, hC, hiss⟩ | ⟨bn, ttl, hE, hB, hiss⟩
    · exact absurd (by rw [hiss]; rfl) hne
    · subst hiss
      exact groupKey_epicPrefix (by simp only [featIssue, Nat.sub_zero, hle, optStr])
    · subst hiss
      exact groupKey_epicPrefix (by simp only [taskIssue, Nat.sub_zero, hle, optStr])
    · subst hiss
      exact groupKey_epicPrefix (by simp only [choreIssue, Nat.sub_zero, hle, optStr])
    · subst hiss
      exact groupKey_epicPrefix (by simp only [bugIssue, Nat.sub_zero, hle, optStr])
  · exact ⟨by decide, by decide, by decide, by decide, by decide⟩

/-- Witness for C4's universal part at the Scenario A document. -/
theorem c4_group_attachment_witness : groupKey issFeatA = some "1" :=
  c4_group_attachment.1 docA [(0, issEpicA), (2, issFeatA)] 2 issFeatA "1"
    (by decide) (by decide) (by decide) (by decide)

/-! ### C5 -/

/-- The C5 counterexample document: the first group has no `Description:`
marker within its own text; the marker belongs to the second group. -/
def docC5 : List String :=
  ["## Epic 1: A", "## Epic 2: B", "**Description:**", "x y"]

/-- C5 counterexample: the first epic's own group text has no
`**Description:**` marker, yet its description is "x y" (stolen from the
second group), not the empty string required by the claim. -/
theorem c5_counterexample :
    parseLines docC5 = some
      [{ title := "A", issue_type := "epic", priority := 1,
         description := "x y", parent := none, epic_id := some "1" },
       { title := "B", issue_type := "epic", priority := 1,
         description := "x y", parent := none, epic_id := some "2" }] ∧
    ({ title := "A", issue_type := "epic", priority := 1, description := "x y",
       parent := none, epic_id := some "1" } : Issue).description ≠ "" := by
  exact ⟨by decide, by decide⟩

/-- C5 (amended): the description scan is unbounded — an epic's description
is the contiguous stripped lines after the FIRST `**Description:**` marker
appearing anywhere after its header (even inside a later group), stopping at
a blank or `###` line; when no marker follows anywhere in the rest of the
document the description is empty (it is also empty when the first marker is
immediately followed by a blank line, a `###` line, or the end of the
document, since the collected block is then empty). -/
theorem c5_amended_description_scan :
    ∀ (lines : List String) (out : List (Nat × Issue)) (k : Nat) (iss : Issue)
      (lk num ttl : String),
    parseAux 0 none none lines = some out → (k, iss) ∈ out →
    lines.get? k = some lk → epicLineOf (pyStrip lk) = some (num, ttl) →
    ((∀ l2 ∈ lines.drop (k + 1), sStarts "**Description:**" (pyStrip l2) = false) →
      iss.description = "") ∧
    (∀ (pre : List String) (mrk : String) (post : List String),
      lines.drop (k + 1) = pre ++ mrk :: post →
      (∀ l2 ∈ pre, sStarts "**Description:**" (pyStrip l2) = false) →
      sStarts "**Description:**" (pyStrip mrk) = true →
      iss.description = joinSp (collectDesc post)) := by
  intro lines out k iss lk num ttl h hm hget hEp
  obtain ⟨-, lk2, hget2, hcase⟩ := parseAux_mem lines 0 none none out h k iss hm
  have hget2b : lines.get? k = some lk2 := hget2
  rw [hget] at hget2b
  have hlk : lk2 = lk := by simpa using hget2b.symm
  subst hlk
  rcases hcase with ⟨num2, ttl2, hEp2, hiss⟩ | ⟨fn, ttl2, p, ty, d, hE, hF, hFS, hiss⟩ |
    ⟨tn, ttl2, hE, hT, hiss⟩ | ⟨cn, ttl2, hE, hC, hiss⟩ | ⟨bn, ttl2, hE, hB, hiss⟩
  · subst hiss
    constructor
    · intro hno
      show epicDescScan (lines.drop (k + 1)) = ""
      exact epicDescScan_no_marker _ hno
    · intro pre mrk post hsplit hpre hmrk
      show epicDescScan (lines.drop (k + 1)) = joinSp (collectDesc post)
      rw [hsplit]
      exact epicDescScan_marker pre mrk post hpre hmrk
  · rw [hEp] at hE; exact absurd hE (by simp)
  · rw [hEp] at hE; exact absurd hE (by simp)
  · rw [hEp] at hE; exact absurd hE (by simp)
  · rw [hEp] at hE; exact absurd hE (by simp)

/-- The C5 witness document: one epic with its own description block, a
second epic with none. -/
def docC5W : List String :=
  ["## Epic 1: A", "**Description:**", "hello", "", "## Epic 2: B"]

/-- Witness for C5's amended theorem: the first epic collects "hello", the
second epic (no marker after it) gets the empty description. -/
theorem c5_amended_description_scan_witness :
    ({ title := "A", issue_type := "epic", priority := 1,
       description := "hello", parent := none,
       epic_id := some "1" } : Issue).description = "hello" ∧
    ({ title := "B", issue_type := "epic", priority := 1, description := "",
       parent := none, epic_id := some "2" } : Issue).description = "" := by
  have hA := c5_amended_description_scan docC5W
    [(0, { title := "A", issue_type := "epic", priority := 1,
           description := "hello", parent := none, epic_id := some "1" }),
     (4, { title := "B", issue_type := "epic", priority := 1,
           description := "", parent := none, epic_id := some "2" })]
    0 { title := "A", issue_type := "epic", priority := 1,
        description := "hello", parent := none, epic_id := some "1" }
    "## Epic 1: A" "1" "A" (by decide) (by decide) (by decide) (by decide)
  have hB := c5_amended_description_scan docC5W
    [(0, { title := "A", issue_type := "epic", priority := 1,
           description := "hello", parent := none, epic_id := some "1" }),
     (4, { title := "B", issue_type := "epic", priority := 1,
           description := "", parent := none, epic_id := some "2" })]
    4 { title := "B", issue_type := "epic", priority := 1,
        description := "", parent := none, epic_id := some "2" }
    "## Epic 2: B" "2" "B" (by decide) (by decide) (by decide) (by decide)
  exact ⟨hA.2 [] "**Description:**" ["hello", "", "## Epic 2: B"]
    (by decide) (by decide) (by decide), hB.1 (by decide)⟩

/-! ### C6 -/

/-- C6 counterexample: a second `parse()` invocation through the same
parser object (whose `self.issues` already holds the first result) returns
the list doubled, not an equal sequence. -/
theorem c6_counterexample :
    parseOn [] docA = some issuesA ∧
    parseOn issuesA docA = some (issuesA ++ issuesA) ∧
    some (issuesA ++ issuesA) ≠ some issuesA := by
  exact ⟨by decide, by decide, by decide⟩

/-- C6 (amended): parsing is a pure function of the document text — a fresh
parser always returns the same sequence — but `parse()` appends to the
object's `self.issues`, so a second invocation through the same object
returns the first result concatenated with a fresh parse and is never equal
to the first result when the document yields at least one item. -/
theorem c6_amended_reparse :
    ∀ (lines : List String) (res : List Issue),
    parseLines lines = some res →
    parseOn [] lines = some res ∧
    parseOn res lines = some (res ++ res) ∧
    (res ≠ [] → parseOn res lines ≠ some res) := by
  intro lines res h
  simp only [parseLines] at h
  obtain ⟨out, hout, hmap⟩ := Option.map_eq_some'.mp h
  have h1 : parseOn [] lines = some res := by
    rw [parseOn, parseAcc_eq lines [] none none 0, hout]
    simp [hmap]
  have h2 : parseOn res lines = some (res ++ res) := by
    rw [parseOn, parseAcc_eq lines res none none 0, hout]
    simp [hmap]
  refine ⟨h1, h2, ?_⟩
  intro hne hcontra
  rw [h2] at hcontra
  have hres : res ++ res = res := by simpa using hcontra
  have hlen := congrArg List.length hres
  simp only [List.length_append] at hlen
  have : res.length = 0 := by omega
  exact hne (List.length_eq_zero.mp this)

/-- Witness for C6's amended theorem at the Scenario A document. -/
theorem c6_amended_reparse_witness :
    parseOn [] docA = some issuesA ∧
    parseOn issuesA docA = some (issuesA ++ issuesA) ∧
    parseOn issuesA docA ≠ some issuesA := by
  have h := c6_amended_reparse docA issuesA (by decide)
  exact ⟨h.1, h.2.1, h.2.2 (by decide)⟩

/-! ### C7 -/

/-- The C7 counterexample document: a feature line whose block has a
`- Type: chore` attribute and no priority attribute. -/
def docC7 : List String :=
  ["## Epic 1: A", "### Features", "#### 1.1 x", "- Type: chore"]

/-- The epic of `docC7` / `docC10`. -/
def issEpicT : Issue :=
  { title := "A", issue_type := "epic", priority := 1, description := "",
    parent := none, epic_id := some "1" }

/-- The kind-chore item of `docC7`, carrying the feature default priority. -/
def issChoreT : Issue :=
  { title := "x", issue_type := "chore", priority := 2, description := "",
    parent := some "epic-1", epic_id := none }

/-- C7 counterexample: a parsed chore with no explicit priority attribute in
the document has priority 2 (the feature default), not 3, because its kind
came from a `- Type:` override on a feature line. -/
theorem c7_counterexample :
    parseLines docC7 = some [issEpicT, issChoreT] ∧
    issChoreT.issue_type = "chore" ∧ issChoreT.priority ≠ 3 := by
  exact ⟨by decide, by decide, by decide⟩

/-- C7 (amended): the default priority is fixed by the marker line that
produced the item, not by its final kind: a task line yields 2, a chore line
3, a bug line 4, and a feature line whose attribute block (the lines up to
the first blank, `**` or `###` line) has no `- Priority:` attribute yields 2
even when a `- Type:` attribute overrides the kind. -/
theorem c7_amended_default_priority :
    ∀ (lines : List String) (out : List (Nat × Issue)) (k : Nat) (iss : Issue)
      (lk : String),
    parseAux 0 none none lines = some out → (k, iss) ∈ out →
    lines.get? k = some lk →
    ((∃ x, epicLineOf (pyStrip lk) = some x ∧ iss.priority = 1) ∨
     (∃ x, featLineOf (pyStrip lk) = some x ∧
       ((∀ l2 ∈ attrBlock (lines.drop (k + 1)),
           sStarts "- Priority:" (pyStrip l2) = false) →
         iss.priority = 2)) ∨
     (∃ x, taskLineOf (pyStrip lk) = some x ∧ iss.priority = 2 ∧
       iss.issue_type = "task") ∨
     (∃ x, choreLineOf (pyStrip lk) = some x ∧ iss.priority = 3 ∧
       iss.issue_type = "chore") ∨
     (∃ x, bugLineOf (pyStrip lk) = some x ∧ iss.priority = 4 ∧
       iss.issue_type = "bug")) := by
  intro lines out k iss lk h hm hget
  obtain ⟨-, lk2, hget2, hcase⟩ := parseAux_mem lines 0 none none out h k iss hm
  have hget2b : lines.get? k = some lk2 := hget2
  rw [hget] at hget2b
  have hlk : lk2 = lk := by simpa using hget2b.symm
  subst hlk
  rcases hcase with ⟨num, ttl, hEp, hiss⟩ | ⟨fn, ttl, p, ty, d, hE, hF, hFS, hiss⟩ |
    ⟨tn, ttl, hE, hT, hiss⟩ | ⟨cn, ttl, hE, hC, hiss⟩ | ⟨bn, ttl, hE, hB, hiss⟩
  · subst hiss
    exact Or.inl ⟨(num, ttl), hEp, rfl⟩
  · subst hiss
    refine Or.inr (Or.inl ⟨(fn, ttl), hF, ?_⟩)
    intro hno
    obtain ⟨ty2, d2, hfs2⟩ := featScanAux_no_priority 2 (lines.drop (k + 1))
      "feature" [] hno
    have hfs2b : featScan (lines.drop (k - 0 + 1)) = some (2, ty2, d2) := hfs2
    have heq := hFS.symm.trans hfs2b
    show p = 2
    simpa using congrArg (fun o => o.map Prod.fst) heq
  · subst hiss
    exact Or.inr (Or.inr (Or.inl ⟨(tn, ttl), hT, rfl, rfl⟩))
  · subst hiss
    exact Or.inr (Or.inr (Or.inr (Or.inl ⟨(cn, ttl), hC, rfl, rfl⟩)))
  · subst hiss
    exact Or.inr (Or.inr (Or.inr (Or.inr ⟨(bn, ttl), hB, rfl, rfl⟩)))

/-- Witness for C7's amended theorem at the `- Type: chore` document. -/
theorem c7_amended_default_priority_witness :
    (∃ x, epicLineOf (pyStrip "#### 1.1 x") = some x ∧ issChoreT.priority = 1) ∨
    (∃ x, featLineOf (pyStrip "#### 1.1 x") = some x ∧
      ((∀ l2 ∈ attrBlock (docC7.drop 3),
          sStarts "- Priority:" (pyStrip l2) = false) →
        issChoreT.priority = 2)) ∨
    (∃ x, taskLineOf (pyStrip "#### 1.1 x") = some x ∧ issChoreT.priority = 2 ∧
      issChoreT.issue_type = "task") ∨
    (∃ x, choreLineOf (pyStrip "#### 1.1 x") = some x ∧ issChoreT.priority = 3 ∧
      issChoreT.issue_type = "chore") ∨
    (∃ x, bugLineOf (pyStrip "#### 1.1 x") = some x ∧ issChoreT.priority = 4 ∧
      issChoreT.issue_type = "bug") :=
  c7_amended_default_priority docC7 [(0, issEpicT), (2, issChoreT)] 2 issChoreT
    "#### 1.1 x" (by decide) (by decide) (by decide)

/-! ### C8 -/

/-- C8: a feature whose attribute block contains a `- Priority:` line gets
that line's value as priority, read as the leading integer of the value
before any parenthetical annotation. `lp` is the block's last `- Priority:`
line (the one whose value the loop keeps); earlier `- Priority:` lines of
the block may exist but must read successfully, or the scan would crash
before reaching `lp` and no feature would be parsed at all (a value that
`int` rejects is claim C9's territory). -/
theorem c8_priority_attribute :
    ∀ (lines : List String) (out : List (Nat × Issue)) (k : Nat) (iss : Issue)
      (lk : String) (x : String × String) (pre : List String) (lp : String)
      (post : List String) (n : Int),
    parseAux 0 none none lines = some out → (k, iss) ∈ out →
    lines.get? k = some lk → featLineOf (pyStrip lk) = some x →
    lines.drop (k + 1) = pre ++ lp :: post →
    (∀ l2 ∈ pre, pyStrip l2 ≠ "" ∧
      sStarts "**" (pyStrip l2) = false ∧ sStarts "###" (pyStrip l2) = false ∧
      (sStarts "- Priority:" (pyStrip l2) = true →
        ∃ m, priExtract (pyStrip l2) = some m)) →
    sStarts "- Priority:" (pyStrip lp) = true →
    priExtract (pyStrip lp) = some n →
    (∀ l2 ∈ attrBlock post, sStarts "- Priority:" (pyStrip l2) = false) →
    iss.priority = n ∧ specLeadInt (fieldOne ':' (pyStrip lp).data) = some n := by
  intro lines out k iss lk x pre lp post n h hm hget hF hsplit hpre hlp hn hpost
  refine ⟨?_, specLeadInt_of_priExtract hn⟩
  obtain ⟨-, lk2, hget2, hcase⟩ := parseAux_mem lines 0 none none out h k iss hm
  have hget2b : lines.get? k = some lk2 := hget2
  rw [hget] at hget2b
  have hlk : lk2 = lk := by simpa using hget2b.symm
  subst hlk
  rcases hcase with ⟨num, ttl, hEp, hiss⟩ | ⟨fn, ttl, p, ty, d, hE, hF2, hFS, hiss⟩ |
    ⟨tn, ttl, hE, hT, hiss⟩ | ⟨cn, ttl, hE, hC, hiss⟩ | ⟨bn, ttl, hE, hB, hiss⟩
  · exact (epic_feat_clash hEp hF).elim
  · subst hiss
    obtain ⟨ty2, d2, hfs2⟩ :=
      featScanAux_priority n pre lp post 2 "feature" [] hpre hlp hn hpost
    have hfs2b : featScan (lines.drop (k - 0 + 1)) = some (n, ty2, d2) := by
      show featScan (lines.drop (k + 1)) = some (n, ty2, d2)
      rw [hsplit]
      exact hfs2
    have heq := hFS.symm.trans hfs2b
    show p = n
    simpa using congrArg (fun o => o.map Prod.fst) heq
  · obtain ⟨r, hr⟩ := taskLineOf_shape hT
    exact (feat_star_clash hF hr).elim
  · obtain ⟨r, hr⟩ := choreLineOf_shape hC
    exact (feat_star_clash hF hr).elim
  · obtain ⟨r, hr⟩ := bugLineOf_shape hB
    exact (feat_star_clash hF hr).elim

/-- Scenario B document: the feature's block carries
`- Priority: 1 (critical)`. -/
def docB : List String :=
  ["## Epic 1: Infra", "### Features", "#### 1.1 user-configurable retries",
   "- Priority: 1 (critical)"]

/-- The feature of Scenario B, with priority 1. -/
def issFeatB : Issue :=
  { title := "user-configurable retries", issue_type := "feature",
    priority := 1, description := "", parent := some "epic-1", epic_id := none }

/-- Witness for C8 at Scenario B. -/
theorem c8_priority_attribute_witness :
    issFeatB.priority = 1 ∧
    specLeadInt (fieldOne ':' (pyStrip "- Priority: 1 (critical)").data) = some 1 :=
  c8_priority_attribute docB [(0, issEpicA), (2, issFeatB)] 2 issFeatB
    "#### 1.1 user-configurable retries" ("1.1", "user-configurable retries")
    [] "- Priority: 1 (critical)" [] 1 (by decide) (by decide) (by decide)
    (by decide) (by decide) (by intro l2 hl2; simp at hl2) (by decide)
    (by decide) (by decide)

/-! ### C9 -/

/-- C9: the parser is not total — a `- Priority:` value that `int` rejects
makes the whole parse fail with an uncaught exception (modelled as `none`),
returning no WorkItem sequence at all, while the same document with a
numeric value parses fine. -/
theorem c9_parser_not_total :
    parseLines ["### Features", "#### 1.1 x", "- Priority: high"] = none ∧
    parseLines ["### Features", "#### 1.1 x", "- Priority: 2"] =
      some [{ title := "x", issue_type := "feature", priority := 2,
              description := "", parent := some "epic-None",
              epic_id := none }] := by
  exact ⟨by decide, by decide⟩

/-! ### C10 -/

/-- The C10 counterexample document: a feature line redeclared as an epic
via `- Type: epic`. -/
def docC10 : List String :=
  ["## Epic 1: A", "### Features", "#### 1.1 x", "- Type: epic"]

/-- The kind-epic item of `docC10`, with the feature default priority. -/
def issTypeEpic : Issue :=
  { title := "x", issue_type := "epic", priority := 2, description := "",
    parent := some "epic-1", epic_id := none }

/-- C10 counterexample: an item can acquire kind `epic` through a `- Type:`
attribute on a feature line, in which case its priority is the feature
default 2, not 1. -/
theorem c10_counterexample :
    parseLines docC10 = some [issEpicT, issTypeEpic] ∧
    issTypeEpic.issue_type = "epic" ∧ issTypeEpic.priority ≠ 1 := by
  exact ⟨by decide, by decide, by decide⟩

/-- C10 (amended): every WorkItem emitted by the group-header branch has
priority 1 (and kind `epic`); only an item whose kind was overridden to
`epic` by a `- Type:` attribute on a feature line can have another
priority. -/
theorem c10_amended_epic_priority :
    ∀ (lines : List String) (out : List (Nat × Issue)) (k : Nat) (iss : Issue)
      (lk : String) (x : String × String),
    parseAux 0 none none lines = some out → (k, iss) ∈ out →
    lines.get? k = some lk → epicLineOf (pyStrip lk) = some x →
    iss.priority = 1 ∧ iss.issue_type = "epic" := by
  intro lines out k iss lk x h hm hget hEp
  obtain ⟨-, lk2, hget2, hcase⟩ := parseAux_mem lines 0 none none out h k iss hm
  have hget2b : lines.get? k = some lk2 := hget2
  rw [hget] at hget2b
  have hlk : lk2 = lk := by simpa using hget2b.symm
  subst hlk
  rcases hcase with ⟨num, ttl, hEp2, hiss⟩ | ⟨fn, ttl, p, ty, d, hE, hF, hFS, hiss⟩ |
    ⟨tn, ttl, hE, hT, hiss⟩ | ⟨cn, ttl, hE, hC, hiss⟩ | ⟨bn, ttl, hE, hB, hiss⟩
  · subst hiss
    exact ⟨rfl, rfl⟩
  · rw [hEp] at hE; exact absurd hE (by simp)
  · rw [hEp] at hE; exact absurd hE (by simp)
  · rw [hEp] at hE; exact absurd hE (by simp)
  · rw [hEp] at hE; exact absurd hE (by simp)

/-- Witness for C10's amended theorem at the Scenario A epic. -/
theorem c10_amended_epic_priority_witness :
    issEpicA.priority = 1 ∧ issEpicA.issue_type = "epic" :=
  c10_amended_epic_priority docA [(0, issEpicA), (2, issFeatA)] 0 issEpicA
    "## Epic 1: Infra" ("1", "Infra") (by decide) (by decide) (by decide)
    (by decide)

end BeadsGen
